import Mathlib

/-!
Verification development for the nrrdtime time-tracking tool
(`nrrdtime/nrrdtime.py`).  The Python code is shallowly embedded:

* Python strings are `List Char` (`PyStr`); `str.lower`, `str.split`,
  `str.strip`, the `in` substring test and truthiness (`""`/`None` are
  falsy) are modelled explicitly.
* `datetime` values are `DT`, wall-clock instants at second granularity
  (a day index plus hour/minute/second); subtraction and comparison go
  through `DT.toSecs`.  `dateutil` parsing is an abstract parameter
  `PyStr → Option DT` wherever the code parses free-form date text.
* `while` loops that repeatedly subtract 60 are embedded as the fueled
  structural recursion `carry60` (fuel bounds the iteration count, and
  `v.toNat` iterations always suffice), so everything evaluates by
  `decide`.
* Exceptions that escape (Python `TypeError` in `sorted`, `IndexError`
  on `stopwatch[-1]`) are modelled as error results.
-/

namespace Nrrdtime

/-- A Python string, modelled as its list of characters. -/
abbrev PyStr := List Char

/-- Python ASCII `str.lower()`. -/
def pyLower (s : PyStr) : PyStr := s.map Char.toLower

/-- Python truthiness of an optional string: `None` and `""` are falsy. -/
def optTruthy : Option PyStr → Bool
  | some (_ :: _) => true
  | _ => false

/-- Run `f` on the value of `o` when `o` is truthy (Python
`if x: ...` over an optional string), otherwise `false`. -/
def pyIf (o : Option PyStr) (f : PyStr → Bool) : Bool :=
  match o with
  | some (c :: cs) => f (c :: cs)
  | _ => false

/-- Python `a or b` over optional strings (`a` if truthy, else `b`). -/
def pyOr (a b : Option PyStr) : Option PyStr :=
  if optTruthy a then a else b

/-- Python `s.split(sep)` for a one-character separator: splits at every
occurrence, keeping empty pieces (`"".split(c) == [""]`). -/
def splitChar (sep : Char) : PyStr → List PyStr
  | [] => [[]]
  | c :: rest =>
    match splitChar sep rest with
    | [] => if c == sep then [[], []] else [[c]]
    | h :: t => if c == sep then [] :: h :: t else (c :: h) :: t

/-- Whether `needle` is a prefix of `hay` (character-wise). -/
def isPrefixCh : PyStr → PyStr → Bool
  | [], _ => true
  | _ :: _, [] => false
  | a :: as_, b :: bs => a == b && isPrefixCh as_ bs

/-- Python `needle in hay` substring containment. -/
def strIn (needle hay : PyStr) : Bool :=
  match hay with
  | [] => needle == []
  | _ :: t => isPrefixCh needle hay || strIn needle t

/-- Python `str.strip()`: drop leading and trailing whitespace. -/
def pyStrip (s : PyStr) : PyStr :=
  ((s.dropWhile Char.isWhitespace).reverse.dropWhile Char.isWhitespace).reverse

/-- A wall-clock instant at second granularity: a day index (relative to
1970-01-01) and a time of day.  `datetime` arithmetic and comparisons in
the source go through the total count of seconds. -/
structure DT where
  day : Int
  hour : Nat
  minute : Nat
  second : Nat
deriving DecidableEq, Repr

/-- Total seconds represented by a `DT` (for subtraction and ordering). -/
def DT.toSecs (d : DT) : Int :=
  d.day * 86400 + d.hour * 3600 + d.minute * 60 + d.second

/-- One stopwatch segment: a dict with `start` and `stop` keys, either of
which may be `None` (absent keys are conflated with `None` values). -/
structure Seg where
  start : Option DT
  stop : Option DT
deriving DecidableEq, Repr

/-- A stored time entry record (the `entry:` mapping of one YAML file).
Timestamps are modelled as already-parsed `DT` values: `_datetime_or_none`
applied to a `datetime` returns it unchanged (`astimezone` preserves the
instant), and YAML loads timestamps as `datetime` objects. -/
structure StoredEntry where
  uid : Option PyStr
  created : Option DT
  updated : Option DT
  started : Option DT
  completed : Option DT
  «alias» : Option PyStr
  description : Option PyStr
  location : Option PyStr
  project : Option PyStr
  tags : Option (List PyStr)
  status : Option PyStr
  stopwatch : List Seg
  notes : Option PyStr
deriving DecidableEq, Repr

/-- Embeds `_parse_time_entry`: reads an entry back, lowercasing `alias`,
`project` and `status` when they are truthy; timestamps pass through
`_datetime_or_none` unchanged in this model. -/
def parseTimeEntry (e : StoredEntry) : StoredEntry :=
  { e with
    «alias» := if optTruthy e.«alias» then e.«alias».map pyLower else e.«alias»
    project := if optTruthy e.project then e.project.map pyLower else e.project
    status := if optTruthy e.status then e.status.map pyLower else e.status }

/-- Fueled body of the `while v > 59: v -= 60; acc += 1` loops.  The fuel
only bounds the number of iterations; `v.toNat` iterations always
suffice, because each pass removes 60 from `v`. -/
def carry60Aux : Nat → Int → Int → Int × Int
  | 0, acc, v => (acc, v)
  | fuel + 1, acc, v => if v > 59 then carry60Aux fuel (acc + 1) (v - 60) else (acc, v)

/-- The loop `while v > 59: v -= 60; acc += 1` -- carry sixties of `v` into `acc`. -/
def carry60 (acc v : Int) : Int × Int := carry60Aux v.toNat acc v

/-- The loop body of `_calc_entry_time`: add one segment's contribution.
`stop` falls back to `now` when absent; a segment without a `start` is
skipped; the contribution is `timedelta.seconds`, i.e. the difference in
seconds modulo 86400 (days, including negative ones, are discarded). -/
def segSeconds (now : DT) (acc : Int) (e : Seg) : Int :=
  let stop := match e.stop with
    | none => some now
    | some s => some s
  match e.start, stop with
  | some st, some sp => acc + (sp.toSecs - st.toSecs) % 86400
  | _, _ => acc

/-- Embeds `_calc_entry_time`: total the stopwatch segments, then normalize the
seconds into minutes and the minutes into hours; an empty (falsy)
stopwatch yields the empty sentinel list. -/
def calcEntryTime (stopwatch : List Seg) (now : DT) : List Int :=
  match stopwatch with
  | [] => []
  | _ :: _ =>
    let seconds := stopwatch.foldl (segSeconds now) 0
    let ms := carry60 0 seconds
    let hm := carry60 0 ms.1
    [hm.1, hm.2, ms.2]

/-- Embeds `_round_time`: apply the configured rounding policy to an
`[hours, minutes, seconds]` triple.  `roundingMethod` 0 stands for the
falsy `None` (no rounding), 1 rounds up, 2 rounds down;
`roundingInterval` 1/2/3 are the 15m/30m/1h granularities. -/
def roundTime (roundingMethod roundingInterval : Nat) (entryTime : List Int) : List Int :=
  let hours := entryTime.getD 0 0
  let minutes := entryTime.getD 1 0
  let seconds := entryTime.getD 2 0
  if roundingMethod ≠ 0 then
    if roundingMethod = 1 then
      -- round up: seconds > 0 first bump the minute
      let m1 := if seconds > 0 then minutes + 1 else minutes
      let s1 := if seconds > 0 then 0 else seconds
      -- in case 59 minutes and 59 seconds got rounded up
      let hm := carry60 hours m1
      let h2 := hm.1
      let m2 := hm.2
      if roundingInterval = 1 then
        if m2 > 45 then [h2 + 1, 0, s1]
        else if 45 > m2 ∧ m2 > 30 then [h2, 45, s1]
        else if 30 > m2 ∧ m2 > 15 then [h2, 30, s1]
        else if 15 > m2 ∧ m2 > 0 then [h2, 15, s1]
        else [h2, m2, s1]
      else if roundingInterval = 2 then
        if m2 > 30 then [h2 + 1, 0, s1]
        else if 30 > m2 ∧ m2 > 0 then [h2, 30, s1]
        else [h2, m2, s1]
      else if roundingInterval = 3 then
        if m2 > 0 then [h2 + 1, 0, s1]
        else [h2, m2, s1]
      else [h2, m2, s1]
    else if roundingMethod = 2 then
      -- round down: seconds always truncate to 0
      if roundingInterval = 1 then
        if minutes > 45 then [hours, 45, 0]
        else if 45 > minutes ∧ minutes > 30 then [hours, 30, 0]
        else if 30 > minutes ∧ minutes > 15 then [hours, 15, 0]
        else if 15 > minutes ∧ minutes > 0 then [hours, 0, 0]
        else [hours, minutes, 0]
      else if roundingInterval = 2 then
        if minutes > 30 then [hours, 30, 0]
        else if 30 > minutes ∧ minutes > 0 then [hours, 0, 0]
        else [hours, minutes, 0]
      else if roundingInterval = 3 then
        [hours, 0, 0]
      else [hours, minutes, 0]
    else [hours, minutes, seconds]
  else entryTime

/-- The key under which an entry sits in the `time_entries` dict (its
`uid` field, which is truthy for every loaded entry). -/
def entryKey (e : StoredEntry) : PyStr := e.uid.getD []

/-- Python `dict(pairs).get(k)`: the value of the last pair whose key is
`k` (later duplicate keys overwrite earlier ones). -/
def dget (d : List (PyStr × PyStr)) (k : PyStr) : Option PyStr :=
  ((d.filter (fun p => p.1 == k)).getLast?).map (·.2)

/-- The `field=` markers recognized by `_perform_search`. -/
def validCriteria : List PyStr :=
  ["uid=".toList, ("description=".toList), ("project=".toList), ("alias=".toList),
   ("tags=".toList), ("status=".toList), ("started=".toList), ("completed=".toList),
   ("notes=".toList)]

/-- Whether `t` contains any recognized `field=` marker
(`any(x in searchterm for x in valid_criteria)`). -/
def anyCriterion (t : PyStr) : Bool := validCriteria.any (fun c => strIn c t)

/-- The `field=value` pair parse used for search and exclude terms:
split on `,`, then each item must split on `=` into exactly two pieces
(otherwise the unpacking raises `ValueError`, reported as an invalid
expression -- `none` here). -/
def parsePairs (s : PyStr) : Option (List (PyStr × PyStr)) :=
  (splitChar ',' s).mapM (fun item =>
    match splitChar '=' item with
    | [k, v] => some (pyStrip k, pyStrip v)
    | _ => none)

/-- The `%` split at the top of `_perform_search`: when the term contains
`%` it is `split("%")` (at every occurrence) and only the first two
components are kept, both lowercased; otherwise the whole lowercased term
is the search term and there is no exclude term. -/
def splitTerm (term : PyStr) : PyStr × Option PyStr :=
  if term.contains '%' then
    let parts := splitChar '%' term
    (pyLower (parts.getD 0 []), some (pyLower (parts.getD 1 [])))
  else (pyLower term, none)

/-- The constant `datetime(1969, 1, 1)`, the fixed range origin of `_parse_dt_range`
(365 days before the 1970 epoch). -/
def origin : DT := ⟨-365, 0, 0, 0⟩

/-- The end-of-day rewrite `end.replace(hour=23, minute=59, second=59)`. -/
def endOfDay (d : DT) : DT := { d with hour := 23, minute := 59, second := 59 }

/-- Embeds `_parse_dt_range`: turn a datetime range expression into a closed
`(begin, end)` pair.  `dtparse` stands for `_datetime_or_none` on date
text (`none` = unparseable).  A leading `~` means "up to", a trailing `~`
means "from ... to now", an inner `~` splits a two-sided range, and a
bare value is used for both ends; failed parses fall back to `origin` /
`now`, and an end with zero hour and minute is pushed to 23:59:59. -/
def parseDtRange (dtparse : PyStr → Option DT) (now : DT) (timestr : PyStr) :
    DT × DT :=
  let pair : Option DT × Option DT :=
    if timestr.head? == some '~' then
      (some origin, dtparse (timestr.filter (fun c => !(c == '~'))))
    else if timestr.getLast? == some '~' then
      (dtparse (timestr.filter (fun c => !(c == '~'))), some now)
    else if timestr.contains '~' then
      let times := splitChar '~' timestr
      (dtparse (pyStrip (times.getD 0 [])), dtparse (pyStrip (times.getD 1 [])))
    else
      (dtparse timestr, dtparse timestr)
  let b := match pair.1 with
    | none => origin
    | some x => x
  let e := match pair.2 with
    | none => now
    | some x => if x.hour = 0 ∧ x.minute = 0 then endOfDay x else x
  (b, e)

/-- The chained comparison `begin <= t <= end` on datetimes. -/
def inRange (b e t : DT) : Bool := b.toSecs ≤ t.toSecs && t.toSecs ≤ e.toSecs

/-- One iteration of the exclude pass of `_perform_search`: does the
(parsed) entry under key `uid` match any populated exclude field?  Note
the `status` criterion: the `split('+')` result is immediately
overwritten by re-reading the raw string, so the loop iterates over its
characters, each compared for equality with the whole status. -/
def excludeMatch (dtparse : PyStr → Option DT) (now : DT)
    (exclude : List (PyStr × PyStr)) (uid : PyStr) (te : StoredEntry) : Bool :=
  let xUid := dget exclude ("uid".toList)
  let xAlias := dget exclude ("alias".toList)
  let xDescription := dget exclude ("description".toList)
  let xProject := dget exclude ("project".toList)
  let xTags := dget exclude ("tags".toList)
  let xStatus := dget exclude ("status".toList)
  let xStarted := dget exclude ("started".toList)
  let xCompleted := dget exclude ("completed".toList)
  let xNotes := dget exclude ("notes".toList)
  (pyIf xUid fun xu => xu == uid) ||
  (pyIf xAlias fun xa => pyIf te.«alias» fun a => xa == a) ||
  (pyIf xDescription fun xd => pyIf te.description fun d => strIn xd d) ||
  (pyIf xProject fun xp => pyIf te.project fun p => strIn xp p) ||
  (pyIf xTags fun xt =>
    match te.tags with
    | some (t :: ts) => (splitChar '+' xt).any (fun tag => (t :: ts).contains tag)
    | _ => false) ||
  (pyIf xStatus fun xs => pyIf te.status fun st => xs.any (fun c => [c] == st)) ||
  (pyIf xStarted fun xs =>
    match te.started with
    | some st => let be := parseDtRange dtparse now xs; inRange be.1 be.2 st
    | none => false) ||
  (pyIf xCompleted fun xc =>
    match te.completed with
    | some ct => let be := parseDtRange dtparse now xc; inRange be.1 be.2 ct
    | none => false) ||
  (pyIf xNotes fun xn => pyIf te.notes fun n => strIn xn n)

/-- One iteration of the search pass of `_perform_search`: is the
(parsed) entry under key `uid` removed because some populated search
field fails to match?  Search fields AND together; `tags` and `status`
values OR over their `+`-separated alternatives; an entry missing a
referenced field is removed. -/
def searchRemove (dtparse : PyStr → Option DT) (now : DT)
    (search : List (PyStr × PyStr)) (uid : PyStr) (te : StoredEntry) : Bool :=
  let sUid := dget search ("uid".toList)
  let sAlias := dget search ("alias".toList)
  let sDescription := dget search ("description".toList)
  let sProject := dget search ("project".toList)
  let sTags := dget search ("tags".toList)
  let sStatus := dget search ("status".toList)
  let sStarted := dget search ("started".toList)
  let sCompleted := dget search ("completed".toList)
  let sNotes := (dget search ("notes".toList)).map pyLower
  (pyIf sUid fun su => !(su == uid)) ||
  (pyIf sAlias fun sa =>
    match te.«alias» with
    | some (c :: cs) => !(sa == (c :: cs))
    | _ => true) ||
  (pyIf sDescription fun sd =>
    match te.description with
    | some (c :: cs) => !(strIn sd (pyLower (c :: cs)))
    | _ => true) ||
  (pyIf sProject fun sp =>
    match te.project with
    | some (c :: cs) => !(strIn sp (pyLower (c :: cs)))
    | _ => true) ||
  (pyIf sTags fun stg =>
    !(match te.tags with
      | some (t :: ts) =>
        (splitChar '+' stg).any (fun tag => (t :: ts).contains tag)
      | _ => false)) ||
  (pyIf sStatus fun sst =>
    !(match te.status with
      | some (c :: cs) => (splitChar '+' sst).any (fun x => x == (c :: cs))
      | _ => false)) ||
  (pyIf sStarted fun ss =>
    match te.started with
    | some st => let be := parseDtRange dtparse now ss; !inRange be.1 be.2 st
    | none => true) ||
  (pyIf sCompleted fun sc =>
    match te.completed with
    | some ct => let be := parseDtRange dtparse now sc; !inRange be.1 be.2 ct
    | none => true) ||
  (pyIf sNotes fun sn =>
    match te.notes with
    | some (c :: cs) => !(strIn sn (pyLower (c :: cs)))
    | _ => true)

/-- Parse one side of the term into a criterion dict: `none` in the
outer `Option` is an aborted invalid expression, `some none` is "no
predicate". `isSearchSide` enables the literal `any` keyword. -/
def parseTermSide (isSearchSide : Bool) (t : PyStr) :
    Option (Option (List (PyStr × PyStr))) :=
  match t with
  | [] => some none
  | c :: cs =>
    if isSearchSide && ((c :: cs) == ("any".toList)) then some none
    else if !anyCriterion (c :: cs) then
      some (some [("description".toList, pyStrip (c :: cs))])
    else
      match parsePairs (c :: cs) with
      | some d => some (some d)
      | none => none

/-- Embeds `_perform_search`: split the term on `%`, parse the search and
exclude sides, drop entries matching any exclude field, then drop entries
failing any search field.  Returns `none` when an invalid expression
aborts the search, otherwise the surviving keys in load order. -/
def performSearch (dtparse : PyStr → Option DT) (now : DT)
    (entries : List StoredEntry) (term : PyStr) : Option (List PyStr) :=
  let st := splitTerm term
  match parseTermSide true st.1 with
  | none => none
  | some search =>
    match (match st.2 with
           | none => some none
           | some et => parseTermSide false et) with
    | none => none
    | some exclude =>
      let ids := entries.map entryKey
      let excludeList := match exclude with
        | none => []
        | some x =>
          ids.filter (fun uid =>
            match entries.find? (fun e => entryKey e == uid) with
            | some e => excludeMatch dtparse now x uid (parseTimeEntry e)
            | none => false)
      let afterExclude := excludeList.foldl (fun l u => l.erase u) ids
      let notMatch := match search with
        | none => []
        | some s =>
          afterExclude.filter (fun uid =>
            match entries.find? (fun e => entryKey e == uid) with
            | some e => searchRemove dtparse now s uid (parseTimeEntry e)
            | none => false)
      some (notMatch.foldl (fun l u => l.erase u) afterExclude)

/-- Embeds `_is_running`: the stored status (lowercased) must be `running`, and
the loop over the stopwatch clears the flag when an entry equal (by
value) to the last one has a truthy `start` and a non-`None` `stop`. -/
def isRunning (e : StoredEntry) : Bool :=
  let te := parseTimeEntry e
  let statusOk := te.status == some ("running".toList)
  let lastClosed := te.stopwatch.any (fun s =>
    (te.stopwatch.getLast? == some s) && s.start.isSome && s.stop.isSome)
  statusOk && !lastClosed

/-- Embeds `_is_paused`: the stored status (lowercased) must be `paused`, and
every stopwatch entry must have both a truthy `start` and `stop`. -/
def isPaused (e : StoredEntry) : Bool :=
  let te := parseTimeEntry e
  let statusOk := te.status == some ("paused".toList)
  let anyOpen := te.stopwatch.any (fun s => !(s.start.isSome && s.stop.isSome))
  statusOk && !anyOpen

/-- Embeds `_remove_items` inside `modify`: collect the source elements at the
given one-based indexes, then remove each collected element (first
occurrence, by value) from the list. -/
def removeItems (deletions : List Int) (source : List Seg) : List Seg :=
  let remItems := deletions.filterMap (fun d =>
    if 1 ≤ d ∧ d ≤ (source.length : Int) then source.get? (d - 1).toNat else none)
  remItems.foldl (fun src item => src.erase item) source

/-- Embeds `_new_or_current` inside `modify`: prefer the new timestamp when
given (it is already a datetime in this model, so its re-parse succeeds),
else keep the current one, else `None`. -/
def newOrCurrent (new current : Option DT) : Option DT :=
  match new with
  | some n => some n
  | none =>
    match current with
    | some c => some c
    | none => none

/-- Ordering used by Python `list.sort()` on strings (code-point
lexicographic). -/
def strLe : PyStr → PyStr → Bool
  | [], _ => true
  | _ :: _, [] => false
  | a :: as_, b :: bs => if a = b then strLe as_ bs else a < b

/-- Insert into an ascending list (stable, after equal elements). -/
def insertStr (x : PyStr) : List PyStr → List PyStr
  | [] => [x]
  | y :: ys => if strLe y x then y :: insertStr x ys else x :: y :: ys

/-- Python `list.sort()` on a list of strings. -/
def sortStrs : List PyStr → List PyStr
  | [] => []
  | x :: xs => insertStr x (sortStrs xs)

/-- The tags block of `modify`: `+`-prefixed values add tags, `~`-prefixed
values remove tags, anything else replaces the tag list; the result is
sorted, and an empty result becomes `None`. -/
def updateTags (newTags : Option PyStr) (current : Option (List PyStr)) :
    Option (List PyStr) :=
  match newTags with
  | some (c0 :: cs0) =>
    let nt := pyLower (c0 :: cs0)
    match nt with
    | '+' :: rest =>
      let items := splitChar ',' rest
      let tags0 := match current with
        | some (t :: ts) => t :: ts
        | _ => []
      let tags1 := items.foldl (fun acc t =>
        if acc.contains t then acc else acc ++ [t]) tags0
      (match tags1 with
       | [] => none
       | _ :: _ => some (sortStrs tags1))
    | '~' :: rest =>
      (match current with
       | some (t :: ts) =>
         let items := splitChar ',' rest
         let tags1 := items.foldl (fun acc x => acc.erase x) (t :: ts)
         (match tags1 with
          | [] => none
          | _ :: _ => some (sortStrs tags1))
       | _ => none)
    | _ => some (sortStrs (splitChar ',' nt))
  | _ => current

/-- Embeds `modify` (its in-memory effect): build the updated record that is
written back for an existing entry.  The written dict carries no
`location` key, so that field is dropped; the written `alias` equals the
parsed (lowercased) stored alias, since the lookup alias matches it
case-insensitively. -/
def modifyEntry (e : StoredEntry) (now : DT)
    (newCompleted : Option DT) (newDescription : Option PyStr)
    (newNotes : Option PyStr) (newProject : Option PyStr)
    (newStarted : Option DT) (newStatus : Option PyStr)
    (newTags : Option PyStr) (delTime : Option (List Int))
    (newStopwatch : Option (List Seg)) : StoredEntry :=
  let te := parseTimeEntry e
  let uStarted := match newStarted with
    | some _ => newOrCurrent newStarted te.started
    | none => te.started
  let uCompleted := match newCompleted with
    | some _ => newOrCurrent newCompleted te.completed
    | none => te.completed
  let uStopwatch0 := match newStopwatch with
    | some (s :: ss) => s :: ss
    | _ => te.stopwatch
  let uStopwatch := match delTime, uStopwatch0 with
    | some (d :: ds), _ :: _ => removeItems (d :: ds) uStopwatch0
    | _, _ => uStopwatch0
  let uStatus := match newStatus with
    | some (c :: cs) => some (pyLower (c :: cs))
    | _ => te.status
  let uNotes := match newNotes with
    | some (c :: cs) =>
      if (c :: cs) = [' '] ∨ (c :: cs) = [' ', '\n'] ∨ (c :: cs) = ['\n']
      then none else some (c :: cs)
    | _ => te.notes
  { uid := e.uid
    created := te.created
    updated := some now
    started := uStarted
    completed := uCompleted
    «alias» := te.«alias»
    status := uStatus
    description := pyOr newDescription te.description
    location := none
    project := pyOr newProject te.project
    tags := updateTags newTags te.tags
    stopwatch := uStopwatch
    notes := uNotes }

/-- The outcome of a status transition on an entry that was found. -/
inductive TransitionResult where
  | ok (e : StoredEntry)
  | invalid
  | indexError
deriving DecidableEq, Repr

/-- Embeds `pause`: allowed only when `_is_running` holds; replaces the last
stopwatch segment by one with the same `start` and `stop = now`, then
modifies status to `paused`.  With a running status and an empty
stopwatch, `stopwatch[-1]` raises `IndexError`. -/
def pauseEntry (e : StoredEntry) (now : DT) : TransitionResult :=
  if isRunning e then
    let te := parseTimeEntry e
    match te.stopwatch.getLast? with
    | none => .indexError
    | some lastEntry =>
      let sw := te.stopwatch.dropLast ++ [⟨lastEntry.start, some now⟩]
      .ok (modifyEntry e now none none none none none
        (some ("paused".toList)) none none (some sw))
  else .invalid

/-- Embeds `resume`: allowed only when `_is_paused` holds; appends a new open
segment starting now and modifies status to `running`. -/
def resumeEntry (e : StoredEntry) (now : DT) : TransitionResult :=
  if isPaused e then
    let te := parseTimeEntry e
    let sw := te.stopwatch ++ [⟨some now, none⟩]
    .ok (modifyEntry e now none none none none none
      (some ("running".toList)) none none (some sw))
  else .invalid

/-- Embeds `stop`: allowed only when `_is_running` holds; closes the last
segment with `now`, sets status to `stopped` and `completed` to `now`
(the formatted-then-reparsed timestamp round-trips at this model's
second granularity). -/
def stopEntry (e : StoredEntry) (now : DT) : TransitionResult :=
  if isRunning e then
    let te := parseTimeEntry e
    match te.stopwatch.getLast? with
    | none => .indexError
    | some lastEntry =>
      let sw := te.stopwatch.dropLast ++ [⟨lastEntry.start, some now⟩]
      .ok (modifyEntry e now (some now) none none none none
        (some ("stopped".toList)) none none (some sw))
  else .invalid

/-- Python `a < b` on optional datetimes: comparing `None` with anything
(including another `None`) raises `TypeError`, modelled as `none`. -/
def pyLtCompleted : Option DT → Option DT → Option Bool
  | some a, some b => some (a.toSecs < b.toSecs)
  | _, _ => none

/-- Insert a `(uid, completed)` pair into an already-sorted run,
propagating the `TypeError` of an attempted `None` comparison. -/
def insertByCompleted (x : PyStr × Option DT) :
    List (PyStr × Option DT) → Option (List (PyStr × Option DT))
  | [] => some [x]
  | y :: ys =>
    match pyLtCompleted x.2 y.2 with
    | none => none
    | some true => some (x :: y :: ys)
    | some false => (insertByCompleted x ys).map (y :: ·)

/-- Comparison sort of `(uid, completed)` pairs by the `completed` key,
in the `TypeError` monad. -/
def sortByCompleted : List (PyStr × Option DT) → Option (List (PyStr × Option DT))
  | [] => some []
  | x :: xs =>
    match sortByCompleted xs with
    | none => none
    | some ys => insertByCompleted x ys

/-- Embeds `_sort_entries`: sort the selected uids by their raw `completed`
values (`sorted(..., key=lambda x: x[1])` compares only those values);
`none` is the uncaught `TypeError` of an order that needs a comparison
involving a missing `completed`. -/
def sortEntries (pairs : List (PyStr × Option DT)) : Option (List PyStr) :=
  (sortByCompleted pairs).map (List.map Prod.fst)

/-- One file handed to `_parse_files`: `data = none` models a read/parse
failure or falsy document, `some none` a document without a truthy
`entry` key, and `some (some e)` a parsed entry record. -/
structure EntryFile where
  path : Nat
  data : Option (Option StoredEntry)
deriving DecidableEq, Repr

/-- Why `_parse_files` skipped a file. -/
inductive SkipReason where
  | unreadable
  | noData
  | duplicate
  | incomplete
deriving DecidableEq, Repr

/-- The accumulating state of `_parse_files`: the three dicts it builds
plus the record of skipped files. -/
structure LoadState where
  entryFiles : List (PyStr × Nat)
  entries : List (PyStr × StoredEntry)
  aliases : List (PyStr × Nat)
  skipped : List (Nat × SkipReason)
deriving DecidableEq, Repr

/-- Truthy `uid` already present in `this_entry_files`. -/
def dupUid (st : LoadState) (te : StoredEntry) : Bool :=
  match te.uid with
  | some (c :: cs) => (st.entryFiles.lookup (c :: cs)).isSome
  | _ => false

/-- Truthy `alias` already present in `aliases`. -/
def dupAlias (st : LoadState) (te : StoredEntry) : Bool :=
  match te.«alias» with
  | some (c :: cs) => (st.aliases.lookup (c :: cs)).isSome
  | _ => false

/-- The body of the `_parse_files` loop for one file: skip unreadable
and entry-less files, skip duplicates, and otherwise add the record only
when `alias and uid` are both truthy -- a file with only one of the two
keys is skipped with the "no uid and/or alias" message. -/
def processFile (st : LoadState) (f : EntryFile) : LoadState :=
  match f.data with
  | none => { st with skipped := st.skipped ++ [(f.path, .unreadable)] }
  | some none => { st with skipped := st.skipped ++ [(f.path, .noData)] }
  | some (some te) =>
    if dupUid st te || dupAlias st te then
      { st with skipped := st.skipped ++ [(f.path, .duplicate)] }
    else
      match te.«alias», te.uid with
      | some (a :: as_), some (u :: us) =>
        { st with
          entries := st.entries ++ [(u :: us, te)]
          entryFiles := st.entryFiles ++ [(u :: us, f.path)]
          aliases := st.aliases ++ [(a :: as_, f.path)] }
      | _, _ => { st with skipped := st.skipped ++ [(f.path, .incomplete)] }

/-- Embeds `_parse_files`: fold the per-file step over the scanned files. -/
def parseFiles (files : List EntryFile) : LoadState :=
  files.foldl processFile ⟨[], [], [], []⟩

/-- Closed form of one segment's contribution in `_calc_entry_time`:
`timedelta.seconds` of effective-stop minus start, i.e. the difference
modulo 86400; a segment without a start contributes nothing. -/
def segContribution (now : DT) (e : Seg) : Int :=
  match e.start, e.stop with
  | some st, some sp => (sp.toSecs - st.toSecs) % 86400
  | some st, none => (now.toSecs - st.toSecs) % 86400
  | none, _ => 0

/-- Modelled from the claim's words for the time accumulator: each
segment contributes the elapsed seconds from its start to its effective
stop, and a segment whose stop is earlier than its start contributes
zero. -/
def claimSegElapsed (now : DT) (e : Seg) : Int :=
  match e.start, e.stop with
  | some st, some sp => max 0 (sp.toSecs - st.toSecs)
  | some st, none => max 0 (now.toSecs - st.toSecs)
  | none, _ => 0

/-- Normalize a non-negative total of seconds into `[hours, minutes,
seconds]` with minutes and seconds below 60. -/
def hmsOfSecs (t : Nat) : List Int :=
  [(t / 3600 : Nat), ((t % 3600) / 60 : Nat), (t % 60 : Nat)]

/-- The time accumulator exactly as the claim words it: sum of
zero-floored elapsed seconds, normalized. -/
def calcEntryTimeClaim (stopwatch : List Seg) (now : DT) : List Int :=
  match stopwatch with
  | [] => []
  | _ :: _ => hmsOfSecs ((stopwatch.map (claimSegElapsed now)).sum).toNat

/-- Up-rounding as the amended claim words it: carry positive seconds
into one extra minute (carrying an hour at 60 minutes), then raise the
minutes to the smallest interval boundary at least the current minutes;
when no boundary below 60 remains, carry one hour and reset to 0. -/
def roundUpSpec (g : Nat) (h m s : Int) : List Int :=
  let m1 := if s > 0 then m + 1 else m
  let h1 := if m1 > 59 then h + 1 else h
  let m2 := if m1 > 59 then m1 - 60 else m1
  let b : Nat := g * ((m2.toNat + g - 1) / g)
  if 60 ≤ b then [h1 + 1, 0, 0] else [h1, (b : Nat), 0]

/-- Modelled from the claim's words: after the seconds carry, minutes
rise to the next interval boundary strictly greater than the current
minutes, overflow carrying one hour. -/
def roundUpStrict (g : Nat) (h m s : Int) : List Int :=
  let m1 := if s > 0 then m + 1 else m
  let h1 := if m1 > 59 then h + 1 else h
  let m2 := if m1 > 59 then m1 - 60 else m1
  let b : Nat := g * (m2.toNat / g + 1)
  if 60 ≤ b then [h1 + 1, 0, 0] else [h1, (b : Nat), 0]

/-- Down-rounding in closed form: truncate seconds, truncate minutes to
the largest interval boundary not above them. -/
def roundDownSpec (g : Nat) (h m s : Int) : List Int :=
  [h, (g * (m.toNat / g) : Nat), 0]

/-- Extension applied to a present parsed end timestamp by
`_parse_dt_range`. -/
def extendEnd (d : DT) : DT :=
  if d.hour = 0 ∧ d.minute = 0 then endOfDay d else d

/-- Did the transition produce an updated entry? -/
def trOk : TransitionResult → Bool
  | .ok _ => true
  | _ => false

/-- The status written by a successful transition. -/
def trStatus : TransitionResult → Option (Option PyStr)
  | .ok e => some e.status
  | _ => none

/-- The project written by a successful transition. -/
def trProject : TransitionResult → Option (Option PyStr)
  | .ok e => some e.project
  | _ => none

/-- Sample entry `foo`: running, one open segment. -/
def sampleFoo : StoredEntry where
  uid := some ("u1".toList)
  created := none
  updated := none
  started := none
  completed := none
  «alias» := some ("foo".toList)
  description := none
  location := none
  project := none
  tags := none
  status := some ("running".toList)
  stopwatch := [⟨some ⟨0, 10, 0, 0⟩, none⟩]
  notes := none

/-- Sample entry `bar`: stopped and completed. -/
def sampleBar : StoredEntry where
  uid := some ("u2".toList)
  created := none
  updated := none
  started := none
  completed := some ⟨19724, 0, 0, 0⟩
  «alias» := some ("bar".toList)
  description := none
  location := none
  project := none
  tags := none
  status := some ("stopped".toList)
  stopwatch := [⟨some ⟨0, 10, 0, 0⟩, some ⟨0, 11, 0, 0⟩⟩]
  notes := none

/-- A running entry whose stopwatch tail has a stop but no start. -/
def samplePauseNoStart : StoredEntry :=
  { sampleFoo with stopwatch := [⟨none, some ⟨0, 1, 0, 0⟩⟩] }

/-- A running entry with a capitalized project name. -/
def sampleProjectFoo : StoredEntry :=
  { sampleFoo with project := some ("Foo".toList) }

/-- A parsed entry record carrying a uid but no alias. -/
def sampleUidOnly : StoredEntry :=
  { sampleFoo with «alias» := none }

/-- The record written back by pausing `sampleFoo` at 12:00. -/
def pausedSampleFoo : StoredEntry :=
  modifyEntry sampleFoo ⟨0, 12, 0, 0⟩ none none none none none
    (some ("paused".toList)) none none
    (some [⟨some ⟨0, 10, 0, 0⟩, some ⟨0, 12, 0, 0⟩⟩])

theorem carry60Aux_spec (fuel : Nat) :
    ∀ (a v : Int), 0 ≤ v → v ≤ 60 * fuel + 59 →
      carry60Aux fuel a v = (a + ((v.toNat / 60 : Nat) : Int), ((v.toNat % 60 : Nat) : Int)) := by
  induction fuel with
  | zero =>
    intro a v h0 h1
    simp only [carry60Aux]
    have hv : v.toNat ≤ 59 := by omega
    have : v.toNat / 60 = 0 := Nat.div_eq_of_lt (by omega)
    have h2 : v.toNat % 60 = v.toNat := Nat.mod_eq_of_lt (by omega)
    simp [this, h2]
    omega
  | succ n ih =>
    intro a v h0 h1
    simp only [carry60Aux]
    by_cases hv : v > 59
    · rw [if_pos hv]
      rw [ih (a + 1) (v - 60) (by omega) (by omega)]
      rw [Prod.mk.injEq]
      refine ⟨by omega, by omega⟩
    · rw [if_neg hv]
      have : v.toNat / 60 = 0 := Nat.div_eq_of_lt (by omega)
      have h2 : v.toNat % 60 = v.toNat := Nat.mod_eq_of_lt (by omega)
      simp [this, h2]
      omega

theorem carry60_eq (a v : Int) (h : 0 ≤ v) :
    carry60 a v = (a + ((v.toNat / 60 : Nat) : Int), ((v.toNat % 60 : Nat) : Int)) :=
  carry60Aux_spec v.toNat a v h (by omega)

theorem carry60_of_le (a v : Int) (h : v ≤ 59) : carry60 a v = (a, v) := by
  unfold carry60
  cases hn : v.toNat with
  | zero => simp [carry60Aux]
  | succ n =>
    simp only [carry60Aux]
    rw [if_neg (by omega)]

theorem carry60_sixty (a : Int) : carry60 a 60 = (a + 1, 0) := by
  rw [carry60_eq a 60 (by omega)]
  norm_num

theorem foldl_segSeconds (now : DT) :
    ∀ (l : List Seg) (acc : Int),
      l.foldl (segSeconds now) acc = acc + (l.map (segContribution now)).sum := by
  intro l
  induction l with
  | nil => intro acc; simp
  | cons x xs ih =>
    intro acc
    simp only [List.foldl_cons, List.map_cons, List.sum_cons, ih]
    have : segSeconds now acc x = acc + segContribution now x := by
      unfold segSeconds segContribution
      cases x.start <;> cases x.stop <;> simp
    rw [this]
    ring

theorem segContribution_nonneg (now : DT) (e : Seg) : 0 ≤ segContribution now e := by
  unfold segContribution
  cases e.start <;> cases e.stop <;> simp <;> omega

theorem sum_segContribution_nonneg (now : DT) (l : List Seg) :
    0 ≤ (l.map (segContribution now)).sum := by
  induction l with
  | nil => simp
  | cons x xs ih =>
    simp only [List.map_cons, List.sum_cons]
    have := segContribution_nonneg now x
    omega

/-- C1: the time accumulator.  The claim says a segment with `stop <
start` contributes zero elapsed seconds; the code adds
`timedelta.seconds`, i.e. the difference modulo 86400, so such a segment
contributes `86400` minus the deficit (and whole days of any segment are
discarded).  This amended statement is the code's actual closed form:
the per-segment contribution is `(effectiveStop - start) mod 86400`
(using `segment.stop` when present, else `now`, and skipping segments
without a start), and the total is normalized with `0 ≤ minutes < 60`,
`0 ≤ seconds < 60`, non-negative unbounded hours; an empty stopwatch
yields the empty sentinel. -/
theorem calcEntryTime_amended (sw : List Seg) (now : DT) :
    (calcEntryTime sw now = [] ↔ sw = []) ∧
    (sw ≠ [] →
      ∃ hh mm ss : Int,
        calcEntryTime sw now = [hh, mm, ss] ∧
        hh = ((((sw.map (segContribution now)).sum.toNat / 3600 : Nat)) : Int) ∧
        mm = (((((sw.map (segContribution now)).sum.toNat % 3600) / 60 : Nat)) : Int) ∧
        ss = ((((sw.map (segContribution now)).sum.toNat % 60 : Nat)) : Int) ∧
        0 ≤ hh ∧ 0 ≤ mm ∧ mm < 60 ∧ 0 ≤ ss ∧ ss < 60) := by
  constructor
  · cases sw with
    | nil => simp [calcEntryTime]
    | cons x xs => simp [calcEntryTime]
  · intro hne
    obtain ⟨x, xs, rfl⟩ : ∃ x xs, sw = x :: xs := by
      cases sw with
      | nil => exact absurd rfl hne
      | cons a l => exact ⟨a, l, rfl⟩
    have hnn := sum_segContribution_nonneg now (x :: xs)
    set T : Int := ((x :: xs).map (segContribution now)).sum with hT
    have hform : calcEntryTime (x :: xs) now =
        [((T.toNat / 60 / 60 : Nat) : Int), ((T.toNat / 60 % 60 : Nat) : Int),
         ((T.toNat % 60 : Nat) : Int)] := by
      simp only [calcEntryTime]
      rw [foldl_segSeconds now (x :: xs) 0]
      simp only [zero_add, ← hT]
      rw [carry60_eq 0 T hnn]
      simp only [zero_add]
      rw [carry60_eq 0 ((T.toNat / 60 : Nat) : Int) (by positivity)]
      simp only [zero_add]
      norm_cast
    refine ⟨_, _, _, hform, ?_, ?_, ?_, ?_, ?_, ?_, ?_, ?_⟩
    · have h1 : T.toNat / 60 / 60 = T.toNat / 3600 := by omega
      rw [h1]
    · have h1 : T.toNat / 60 % 60 = T.toNat % 3600 / 60 := by omega
      rw [h1]
    · rfl
    · positivity
    · positivity
    · exact_mod_cast Nat.mod_lt (T.toNat / 60) (by norm_num)
    · positivity
    · exact_mod_cast Nat.mod_lt T.toNat (by norm_num)

/-- C1 witness: the amended characterization evaluated on a concrete
one-segment stopwatch. -/
theorem calcEntryTime_amended_witness :
    ∃ hh mm ss : Int,
      calcEntryTime [⟨some ⟨0, 10, 0, 0⟩, some ⟨0, 11, 2, 3⟩⟩] ⟨0, 12, 0, 0⟩ = [hh, mm, ss] ∧
      hh = (((([⟨some ⟨0, 10, 0, 0⟩, some ⟨0, 11, 2, 3⟩⟩].map
        (segContribution ⟨0, 12, 0, 0⟩)).sum.toNat / 3600 : Nat)) : Int) ∧
      mm = ((((([⟨some ⟨0, 10, 0, 0⟩, some ⟨0, 11, 2, 3⟩⟩].map
        (segContribution ⟨0, 12, 0, 0⟩)).sum.toNat % 3600) / 60 : Nat)) : Int) ∧
      ss = (((([⟨some ⟨0, 10, 0, 0⟩, some ⟨0, 11, 2, 3⟩⟩].map
        (segContribution ⟨0, 12, 0, 0⟩)).sum.toNat % 60 : Nat)) : Int) ∧
      0 ≤ hh ∧ 0 ≤ mm ∧ mm < 60 ∧ 0 ≤ ss ∧ ss < 60 :=
  (calcEntryTime_amended [⟨some ⟨0, 10, 0, 0⟩, some ⟨0, 11, 2, 3⟩⟩] ⟨0, 12, 0, 0⟩).2
    (by decide)

/-- C1 counterexample: a segment whose stop is 86399 seconds before its
start.  The claim's accumulator makes it contribute zero, yielding
`[0, 0, 0]`; the code's `timedelta.seconds` yields one second. -/
theorem calcEntryTime_counterexample :
    calcEntryTime [⟨some ⟨0, 23, 59, 59⟩, some ⟨0, 0, 0, 0⟩⟩] ⟨0, 0, 0, 0⟩ = [0, 0, 1] ∧
    calcEntryTimeClaim [⟨some ⟨0, 23, 59, 59⟩, some ⟨0, 0, 0, 0⟩⟩] ⟨0, 0, 0, 0⟩ = [0, 0, 0] ∧
    calcEntryTime [⟨some ⟨0, 23, 59, 59⟩, some ⟨0, 0, 0, 0⟩⟩] ⟨0, 0, 0, 0⟩ ≠
      calcEntryTimeClaim [⟨some ⟨0, 23, 59, 59⟩, some ⟨0, 0, 0, 0⟩⟩] ⟨0, 0, 0, 0⟩ := by
  refine ⟨by decide, by decide, by decide⟩

theorem getD_zero (a b c : Int) : [a, b, c].getD 0 0 = a := rfl

theorem getD_one (a b c : Int) : [a, b, c].getD 1 0 = b := rfl

theorem getD_two (a b c : Int) : [a, b, c].getD 2 0 = c := rfl

theorem carry60_small (a v : Int) (h0 : 0 ≤ v) (h1 : v ≤ 60) :
    carry60 a v = (if v > 59 then a + 1 else a, if v > 59 then v - 60 else v) := by
  by_cases h : v > 59
  · have hv : v = 60 := by omega
    subst hv
    rw [carry60_sixty]
    norm_num
  · rw [carry60_of_le a v (by omega)]
    simp [h]

theorem roundTime_up15 (h m s : Int) (hm0 : 0 ≤ m) (hm : m < 60)
    (hs0 : 0 ≤ s) (hs : s < 60) :
    roundTime 1 1 [h, m, s] = roundUpSpec 15 h m s := by
  have hb0 : (0 : Int) ≤ if s > 0 then m + 1 else m := by split_ifs <;> omega
  have hb1 : (if s > 0 then m + 1 else m) ≤ 60 := by split_ifs <;> omega
  simp only [roundTime, getD_zero, getD_one, getD_two]
  norm_num
  rw [carry60_small h _ hb0 hb1]
  simp only [roundUpSpec]
  split_ifs <;> simp only [List.cons.injEq, and_true, true_and] <;> omega

theorem roundTime_up30 (h m s : Int) (hm0 : 0 ≤ m) (hm : m < 60)
    (hs0 : 0 ≤ s) (hs : s < 60) :
    roundTime 1 2 [h, m, s] = roundUpSpec 30 h m s := by
  have hb0 : (0 : Int) ≤ if s > 0 then m + 1 else m := by split_ifs <;> omega
  have hb1 : (if s > 0 then m + 1 else m) ≤ 60 := by split_ifs <;> omega
  simp only [roundTime, getD_zero, getD_one, getD_two]
  norm_num
  rw [carry60_small h _ hb0 hb1]
  simp only [roundUpSpec]
  split_ifs <;> simp only [List.cons.injEq, and_true, true_and] <;> omega

theorem roundTime_up60 (h m s : Int) (hm0 : 0 ≤ m) (hm : m < 60)
    (hs0 : 0 ≤ s) (hs : s < 60) :
    roundTime 1 3 [h, m, s] = roundUpSpec 60 h m s := by
  have hb0 : (0 : Int) ≤ if s > 0 then m + 1 else m := by split_ifs <;> omega
  have hb1 : (if s > 0 then m + 1 else m) ≤ 60 := by split_ifs <;> omega
  simp only [roundTime, getD_zero, getD_one, getD_two]
  norm_num
  rw [carry60_small h _ hb0 hb1]
  simp only [roundUpSpec]
  split_ifs <;> simp only [List.cons.injEq, and_true, true_and] <;> omega

theorem roundTime_down15 (h m s : Int) (hm0 : 0 ≤ m) (hm : m < 60) :
    roundTime 2 1 [h, m, s] = roundDownSpec 15 h m s := by
  simp only [roundTime, roundDownSpec, getD_zero, getD_one, getD_two]
  norm_num
  split_ifs <;> simp only [List.cons.injEq, and_true, true_and] <;> omega

theorem roundTime_down30 (h m s : Int) (hm0 : 0 ≤ m) (hm : m < 60) :
    roundTime 2 2 [h, m, s] = roundDownSpec 30 h m s := by
  simp only [roundTime, roundDownSpec, getD_zero, getD_one, getD_two]
  norm_num
  split_ifs <;> simp only [List.cons.injEq, and_true, true_and] <;> omega

theorem roundTime_down60 (h m s : Int) (hm0 : 0 ≤ m) (hm : m < 60) :
    roundTime 2 3 [h, m, s] = roundDownSpec 60 h m s := by
  simp only [roundTime, roundDownSpec, getD_zero, getD_one, getD_two]
  norm_num
  omega

theorem roundTime_none (i : Nat) (l : List Int) : roundTime 0 i l = l := by
  simp [roundTime]

/-- C3: up-rounding.  The claim's "next boundary strictly greater than
the current minutes" fails when the minutes already sit on a boundary
(the code leaves 0/15/30/45 unchanged); amended to "smallest boundary
greater than or equal to the current minutes", the characterization
holds for every normalized duration and interval, with overflow past the
last boundary carrying exactly one hour. -/
theorem roundTime_up_amended (h m s : Int) (hm0 : 0 ≤ m) (hm : m < 60)
    (hs0 : 0 ≤ s) (hs : s < 60) :
    roundTime 1 1 [h, m, s] = roundUpSpec 15 h m s ∧
    roundTime 1 2 [h, m, s] = roundUpSpec 30 h m s ∧
    roundTime 1 3 [h, m, s] = roundUpSpec 60 h m s :=
  ⟨roundTime_up15 h m s hm0 hm hs0 hs,
   roundTime_up30 h m s hm0 hm hs0 hs,
   roundTime_up60 h m s hm0 hm hs0 hs⟩

/-- C3 witness: the amended up-rounding characterization at 0:47:30. -/
theorem roundTime_up_amended_witness :
    roundTime 1 1 [0, 47, 30] = roundUpSpec 15 0 47 30 ∧
    roundTime 1 2 [0, 47, 30] = roundUpSpec 30 0 47 30 ∧
    roundTime 1 3 [0, 47, 30] = roundUpSpec 60 0 47 30 :=
  roundTime_up_amended 0 47 30 (by decide) (by decide) (by decide) (by decide)

/-- C3 counterexample: at 45 minutes exactly, the 15m up-rounding leaves
the duration unchanged, while the claim's "strictly greater boundary"
rule would carry to one hour. -/
theorem roundTime_up_counterexample :
    roundTime 1 1 [0, 45, 0] = [0, 45, 0] ∧
    roundUpStrict 15 0 45 0 = [1, 0, 0] ∧
    roundTime 1 1 [0, 45, 0] ≠ roundUpStrict 15 0 45 0 :=
  ⟨by decide, by decide, by decide⟩

theorem roundUpSpec_norm (g : Nat) (hg : g = 15 ∨ g = 30 ∨ g = 60) (h m s : Int) :
    roundUpSpec g h m s =
      [(roundUpSpec g h m s).getD 0 0, (roundUpSpec g h m s).getD 1 0, 0] ∧
    0 ≤ (roundUpSpec g h m s).getD 1 0 ∧
    (roundUpSpec g h m s).getD 1 0 < 60 ∧
    ((roundUpSpec g h m s).getD 1 0).toNat % g = 0 := by
  rcases hg with rfl | rfl | rfl <;> simp only [roundUpSpec] <;> split_ifs <;>
    simp only [getD_zero, getD_one, getD_two] <;>
    exact ⟨by trivial, by omega, by omega, by omega⟩

theorem roundDownSpec_norm (g : Nat) (hg : g = 15 ∨ g = 30 ∨ g = 60)
    (h m s : Int) (hm0 : 0 ≤ m) (hm : m < 60) :
    roundDownSpec g h m s =
      [(roundDownSpec g h m s).getD 0 0, (roundDownSpec g h m s).getD 1 0, 0] ∧
    0 ≤ (roundDownSpec g h m s).getD 1 0 ∧
    (roundDownSpec g h m s).getD 1 0 < 60 ∧
    ((roundDownSpec g h m s).getD 1 0).toNat % g = 0 := by
  rcases hg with rfl | rfl | rfl <;> simp only [roundDownSpec] <;>
    simp only [getD_zero, getD_one, getD_two] <;>
    exact ⟨by trivial, by omega, by omega, by omega⟩

theorem roundUpSpec_boundary (g : Nat) (hg : g = 15 ∨ g = 30 ∨ g = 60)
    (hh mm : Int) (h0 : 0 ≤ mm) (h1 : mm < 60) (hmod : mm.toNat % g = 0) :
    roundUpSpec g hh mm 0 = [hh, mm, 0] := by
  rcases hg with rfl | rfl | rfl <;> simp only [roundUpSpec] <;> split_ifs <;>
    simp only [List.cons.injEq, true_and, and_true] <;> omega

theorem roundDownSpec_boundary (g : Nat) (hg : g = 15 ∨ g = 30 ∨ g = 60)
    (hh mm : Int) (h0 : 0 ≤ mm) (hmod : mm.toNat % g = 0) :
    roundDownSpec g hh mm 0 = [hh, mm, 0] := by
  rcases hg with rfl | rfl | rfl <;>
    simp only [roundDownSpec, List.cons.injEq, true_and, and_true] <;> omega

/-- C8: rounding is idempotent for every method (`none`/up/down) and
interval (15m/30m/1h) on a normalized duration. -/
theorem roundTime_idempotent (method interval : Nat) (h m s : Int)
    (hmethod : method ≤ 2) (hi1 : 1 ≤ interval) (hi3 : interval ≤ 3)
    (hm0 : 0 ≤ m) (hm : m < 60) (hs0 : 0 ≤ s) (hs : s < 60) :
    roundTime method interval (roundTime method interval [h, m, s]) =
      roundTime method interval [h, m, s] := by
  interval_cases method
  · rw [roundTime_none, roundTime_none]
  · interval_cases interval
    · rw [roundTime_up15 h m s hm0 hm hs0 hs]
      obtain ⟨hshape, hb0, hb1, hbmod⟩ := roundUpSpec_norm 15 (by norm_num) h m s
      rw [hshape]
      rw [roundTime_up15 _ _ _ hb0 hb1 le_rfl (by norm_num)]
      exact roundUpSpec_boundary 15 (by norm_num) _ _ hb0 hb1 hbmod
    · rw [roundTime_up30 h m s hm0 hm hs0 hs]
      obtain ⟨hshape, hb0, hb1, hbmod⟩ := roundUpSpec_norm 30 (by norm_num) h m s
      rw [hshape]
      rw [roundTime_up30 _ _ _ hb0 hb1 le_rfl (by norm_num)]
      exact roundUpSpec_boundary 30 (by norm_num) _ _ hb0 hb1 hbmod
    · rw [roundTime_up60 h m s hm0 hm hs0 hs]
      obtain ⟨hshape, hb0, hb1, hbmod⟩ := roundUpSpec_norm 60 (by norm_num) h m s
      rw [hshape]
      rw [roundTime_up60 _ _ _ hb0 hb1 le_rfl (by norm_num)]
      exact roundUpSpec_boundary 60 (by norm_num) _ _ hb0 hb1 hbmod
  · interval_cases interval
    · rw [roundTime_down15 h m s hm0 hm]
      obtain ⟨hshape, hb0, hb1, hbmod⟩ :=
        roundDownSpec_norm 15 (by norm_num) h m s hm0 hm
      rw [hshape]
      rw [roundTime_down15 _ _ _ hb0 hb1]
      exact roundDownSpec_boundary 15 (by norm_num) _ _ hb0 hbmod
    · rw [roundTime_down30 h m s hm0 hm]
      obtain ⟨hshape, hb0, hb1, hbmod⟩ :=
        roundDownSpec_norm 30 (by norm_num) h m s hm0 hm
      rw [hshape]
      rw [roundTime_down30 _ _ _ hb0 hb1]
      exact roundDownSpec_boundary 30 (by norm_num) _ _ hb0 hbmod
    · rw [roundTime_down60 h m s hm0 hm]
      obtain ⟨hshape, hb0, hb1, hbmod⟩ :=
        roundDownSpec_norm 60 (by norm_num) h m s hm0 hm
      rw [hshape]
      rw [roundTime_down60 _ _ _ hb0 hb1]
      exact roundDownSpec_boundary 60 (by norm_num) _ _ hb0 hbmod

/-- C8 witness: idempotence of 15m up-rounding at 0:47:30. -/
theorem roundTime_idempotent_witness :
    roundTime 1 1 (roundTime 1 1 [0, 47, 30]) = roundTime 1 1 [0, 47, 30] :=
  roundTime_idempotent 1 1 0 47 30 (by decide) (by decide) (by decide)
    (by decide) (by decide) (by decide) (by decide)

theorem splitChar_ne_nil (sep : Char) (l : PyStr) : splitChar sep l ≠ [] := by
  induction l with
  | nil => simp [splitChar]
  | cons c cs ih =>
    simp only [splitChar]
    cases hrec : splitChar sep cs with
    | nil => split_ifs <;> simp
    | cons x xs => split_ifs <;> simp

theorem splitChar_no_sep (sep : Char) (l : PyStr) (h : sep ∉ l) :
    splitChar sep l = [l] := by
  induction l with
  | nil => rfl
  | cons c cs ih =>
    simp only [List.mem_cons, not_or] at h
    have hc : (c == sep) = false := by
      cases hcc : c == sep
      · rfl
      · exact absurd (eq_of_beq hcc).symm h.1
    simp only [splitChar, ih h.2, hc]
    simp

theorem splitChar_append (sep : Char) (a rest : PyStr) (h : sep ∉ a) :
    splitChar sep (a ++ sep :: rest) = a :: splitChar sep rest := by
  induction a with
  | nil =>
    simp only [List.nil_append, splitChar]
    cases hrec : splitChar sep rest with
    | nil => exact absurd hrec (splitChar_ne_nil sep rest)
    | cons x xs => simp
  | cons c cs ih =>
    simp only [List.mem_cons, not_or] at h
    have hc : (c == sep) = false := by
      cases hcc : c == sep
      · rfl
      · exact absurd (eq_of_beq hcc).symm h.1
    simp only [List.cons_append, splitChar, List.append_eq]
    rw [ih h.2]
    simp [hc]

theorem contains_append_cons (a rest : PyStr) (sep : Char) :
    (a ++ sep :: rest).contains sep = true := by
  simp [List.contains, List.elem_eq_mem]

/-- C6 amended: `term.split("%")` splits at every `%` and only the first
two components are kept.  For a term with two `%` delimiters the exclude
side is the text strictly between them, lowercased; the text after the
second `%` is discarded (not passed through, as the claim states). -/
theorem splitTerm_two_delims (a b r : PyStr) (ha : '%' ∉ a) (hb : '%' ∉ b) :
    splitTerm (a ++ '%' :: (b ++ '%' :: r)) = (pyLower a, some (pyLower b)) := by
  simp only [splitTerm, contains_append_cons, if_true]
  rw [splitChar_append '%' a (b ++ '%' :: r) ha]
  rw [splitChar_append '%' b r hb]
  rfl

/-- C6 witness: the amended split at a concrete double-`%` term. -/
theorem splitTerm_two_delims_witness :
    splitTerm ("a".toList ++ '%' :: ("b".toList ++ '%' :: ("c".toList))) =
      (pyLower ("a".toList), some (pyLower ("b".toList))) :=
  splitTerm_two_delims ("a".toList) ("b".toList) ("c".toList) (by decide) (by decide)

/-- C6 counterexample: on `a%b%c` the exclude side is `b`, not the
claimed literal pass-through `b%c`. -/
theorem splitTerm_counterexample :
    splitTerm ("a%b%c".toList) = ("a".toList, some ("b".toList)) ∧
    (some ("b".toList) : Option PyStr) ≠ some ("b%c".toList) :=
  ⟨by decide, by decide⟩

theorem filter_no_tilde (D : PyStr) (h : '~' ∉ D) :
    D.filter (fun c => !(c == '~')) = D := by
  induction D with
  | nil => rfl
  | cons c cs ih =>
    simp only [List.mem_cons, not_or] at h
    have hc : (c == '~') = false := by
      cases hcc : c == '~'
      · rfl
      · exact absurd (eq_of_beq hcc).symm h.1
    simp [List.filter, hc, ih h.2]

theorem head_ne_tilde (D : PyStr) (h : '~' ∉ D) :
    (D.head? == some '~') = false := by
  cases D with
  | nil => rfl
  | cons c cs =>
    simp only [List.mem_cons, not_or] at h
    have hc : (c == '~') = false := by
      cases hcc : c == '~'
      · rfl
      · exact absurd (eq_of_beq hcc).symm h.1
    simp [List.head?, hc]

theorem getLast_ne_tilde (D : PyStr) (h : '~' ∉ D) :
    (D.getLast? == some '~') = false := by
  cases hD : D.getLast? with
  | none => rfl
  | some c =>
    have : c ∈ D := List.mem_of_mem_getLast? hD
    have : c ≠ '~' := fun hc => h (hc ▸ this)
    simp [this]

theorem contains_of_not_mem (D : PyStr) (c : Char) (h : c ∉ D) :
    D.contains c = false := by
  simp [List.contains, List.elem_eq_mem, h]

/-- C4: `_parse_dt_range`.  The four range forms, the 23:59:59 extension
of a parsed end with zero hour and minute, and the fallback to
`[origin, now]` on unparseable text all hold; the one amendment is that
the extension also applies to the `now` taken as the end of a `D~` range
(so at an exact midnight `now`, `D~` ends at 23:59:59 of that day rather
than at `now`). -/
theorem parseDtRange_amended (p : PyStr → Option DT) (now : DT) :
    (∀ (D : PyStr) (d : DT), '~' ∉ D → p D = some d →
      parseDtRange p now ('~' :: D) = (origin, extendEnd d)) ∧
    (∀ (D : PyStr) (d : DT), '~' ∉ D → D ≠ [] → p D = some d →
      parseDtRange p now (D ++ ['~']) =
        (d, if now.hour = 0 ∧ now.minute = 0 then endOfDay now else now)) ∧
    (∀ (D1 D2 : PyStr) (d1 d2 : DT), '~' ∉ D1 → '~' ∉ D2 → D1 ≠ [] → D2 ≠ [] →
      p (pyStrip D1) = some d1 → p (pyStrip D2) = some d2 →
      parseDtRange p now (D1 ++ '~' :: D2) = (d1, extendEnd d2)) ∧
    (∀ (D : PyStr) (d : DT), '~' ∉ D → p D = some d →
      parseDtRange p now D = (d, extendEnd d)) ∧
    (∀ D : PyStr, '~' ∉ D → p D = none →
      parseDtRange p now D = (origin, now)) ∧
    (∀ D : PyStr, '~' ∉ D → p D = none →
      parseDtRange p now ('~' :: D) = (origin, now)) := by
  refine ⟨?_, ?_, ?_, ?_, ?_, ?_⟩
  · intro D d hD hp
    have hfilter : ('~' :: D).filter (fun c => !(c == '~')) = D := by
      simp [List.filter, filter_no_tilde D hD]
    simp only [parseDtRange]
    rw [show (('~' :: D).head? == some '~') = true from rfl]
    simp only [if_true, hfilter, hp, extendEnd]
  · intro D d hD hne hp
    obtain ⟨c, cs, rfl⟩ : ∃ c cs, D = c :: cs := by
      cases D with
      | nil => exact absurd rfl hne
      | cons c cs => exact ⟨c, cs, rfl⟩
    have hhead : ((c :: cs ++ ['~']).head? == some '~') = false := by
      simp only [List.mem_cons, not_or] at hD
      have hc : (c == '~') = false := by
        cases hcc : c == '~'
        · rfl
        · exact absurd (eq_of_beq hcc).symm hD.1
      simp [List.head?, hc]
    have hlast : ((c :: cs ++ ['~']).getLast? == some '~') = true := by
      rw [List.getLast?_concat]
      simp
    have hfilter : (c :: cs ++ ['~']).filter (fun x => !(x == '~')) = c :: cs := by
      have h1 : (c :: cs ++ ['~']) = (c :: cs) ++ ('~' :: []) := by simp
      rw [h1, List.filter_append, filter_no_tilde (c :: cs) hD]
      simp
    simp only [parseDtRange, hhead, hlast, Bool.false_eq_true, if_false, if_true,
      hfilter, hp]
  · intro D1 D2 d1 d2 h1 h2 hne1 hne2 hp1 hp2
    obtain ⟨c, cs, rfl⟩ : ∃ c cs, D1 = c :: cs := by
      cases D1 with
      | nil => exact absurd rfl hne1
      | cons c cs => exact ⟨c, cs, rfl⟩
    have hhead : ((c :: cs ++ '~' :: D2).head? == some '~') = false := by
      simp only [List.mem_cons, not_or] at h1
      have hc : (c == '~') = false := by
        cases hcc : c == '~'
        · rfl
        · exact absurd (eq_of_beq hcc).symm h1.1
      simp [List.head?, hc]
    have hlast : ((c :: cs ++ '~' :: D2).getLast? == some '~') = false := by
      rw [List.getLast?_append_of_ne_nil _ (by simp : ('~' :: D2) ≠ [])]
      rw [show ('~' :: D2) = ['~'] ++ D2 from rfl]
      rw [List.getLast?_append_of_ne_nil _ hne2]
      exact getLast_ne_tilde D2 h2
    have hcont : (c :: cs ++ '~' :: D2).contains '~' = true :=
      contains_append_cons (c :: cs) D2 '~'
    have hsplit : splitChar '~' (c :: cs ++ '~' :: D2) = (c :: cs) :: [D2] := by
      rw [splitChar_append '~' (c :: cs) D2 h1, splitChar_no_sep '~' D2 h2]
    simp only [parseDtRange, hhead, hlast, Bool.false_eq_true, if_false, hcont,
      if_true, hsplit]
    simp only [List.getD, List.get?, Option.getD_some, hp1, hp2, extendEnd]
  · intro D d hD hp
    simp only [parseDtRange, head_ne_tilde D hD, getLast_ne_tilde D hD,
      contains_of_not_mem D '~' hD, Bool.false_eq_true, if_false, hp, extendEnd]
  · intro D hD hp
    simp only [parseDtRange, head_ne_tilde D hD, getLast_ne_tilde D hD,
      contains_of_not_mem D '~' hD, Bool.false_eq_true, if_false, hp]
  · intro D hD hp
    have hfilter : ('~' :: D).filter (fun c => !(c == '~')) = D := by
      simp [List.filter, filter_no_tilde D hD]
    simp only [parseDtRange]
    rw [show (('~' :: D).head? == some '~') = true from rfl]
    simp only [if_true, hfilter, hp]

/-- C4 witness: each conjunct of the range characterization evaluated at
concrete inputs. -/
theorem parseDtRange_amended_witness :
    (parseDtRange (fun s => if s = ("d".toList) then some ⟨5, 3, 0, 0⟩ else none)
        ⟨100, 12, 30, 0⟩ ('~' :: ("d".toList)) = (origin, extendEnd ⟨5, 3, 0, 0⟩)) ∧
    (parseDtRange (fun s => if s = ("d".toList) then some ⟨5, 3, 0, 0⟩ else none)
        ⟨100, 12, 30, 0⟩ ("d".toList ++ ['~']) =
      (⟨5, 3, 0, 0⟩,
        if (⟨100, 12, 30, 0⟩ : DT).hour = 0 ∧ (⟨100, 12, 30, 0⟩ : DT).minute = 0
        then endOfDay ⟨100, 12, 30, 0⟩ else (⟨100, 12, 30, 0⟩ : DT))) ∧
    (parseDtRange (fun s => if s = ("d".toList) then some ⟨5, 3, 0, 0⟩ else none)
        ⟨100, 12, 30, 0⟩ ("x".toList) = (origin, ⟨100, 12, 30, 0⟩)) := by
  obtain ⟨h1, h2, h3, h4, h5, h6⟩ := parseDtRange_amended
    (fun s => if s = ("d".toList) then some ⟨5, 3, 0, 0⟩ else none) ⟨100, 12, 30, 0⟩
  refine ⟨h1 ("d".toList) ⟨5, 3, 0, 0⟩ (by decide) (by decide), ?_, ?_⟩
  · have := h2 ("d".toList) ⟨5, 3, 0, 0⟩ (by decide) (by decide) (by decide)
    simpa using this
  · exact h5 ("x".toList) (by decide) (by decide)

/-- C4 counterexample: with `now` at exactly midnight, `D~` does not
yield `[D, now]` -- the midnight extension is applied to the `now`
fallback end as well, pushing the end to 23:59:59. -/
theorem parseDtRange_counterexample :
    parseDtRange (fun s => if s = ("d".toList) then some ⟨5, 3, 0, 0⟩ else none)
        ⟨100, 0, 0, 0⟩ ("d".toList ++ ['~']) =
      (⟨5, 3, 0, 0⟩, ⟨100, 23, 59, 59⟩) ∧
    (⟨100, 23, 59, 59⟩ : DT) ≠ ⟨100, 0, 0, 0⟩ :=
  ⟨by decide, by decide⟩

theorem parseTimeEntry_stopwatch (e : StoredEntry) :
    (parseTimeEntry e).stopwatch = e.stopwatch := rfl

theorem isRunning_iff (e : StoredEntry) :
    isRunning e = true ↔
      ((parseTimeEntry e).status = some ("running".toList) ∧
        ∀ l, e.stopwatch.getLast? = some l → l.start = none ∨ l.stop = none) := by
  unfold isRunning
  rw [Bool.and_eq_true, Bool.not_eq_true']
  constructor
  · rintro ⟨hstatus, hclosed⟩
    refine ⟨by simpa using hstatus, ?_⟩
    intro l hlast
    cases hstart : l.start with
    | none => exact Or.inl rfl
    | some a =>
      cases hstop : l.stop with
      | none => exact Or.inr rfl
      | some b =>
        exfalso
        rw [List.any_eq_false] at hclosed
        have hmem : l ∈ (parseTimeEntry e).stopwatch :=
          List.mem_of_mem_getLast? (by rw [parseTimeEntry_stopwatch]; exact hlast)
        have hl := hclosed l hmem
        rw [parseTimeEntry_stopwatch] at hl
        simp [hlast, hstart, hstop] at hl
  · rintro ⟨hstatus, hopen⟩
    refine ⟨by simpa using hstatus, ?_⟩
    rw [List.any_eq_false]
    intro x hx
    rw [parseTimeEntry_stopwatch]
    cases hlast : e.stopwatch.getLast? with
    | none => simp
    | some l =>
      by_cases hxl : x = l
      · subst hxl
        rcases hopen x hlast with h | h <;> simp [h]
      · have hne : (some l == some x) = false := by
          simp only [beq_eq_false_iff_ne, ne_eq, Option.some.injEq]
          exact fun hc => hxl hc.symm
        simp [hne]

/-- C5: `pause`.  Success requires `_is_running` -- the lowercased status
must be `running` and the stopwatch tail must not be a fully closed
segment -- and additionally a non-empty stopwatch (an empty one raises
`IndexError` instead of the invalid-transition error).  Contrary to the
claim, the tail need not be an open segment with a start: a tail missing
its start also passes the check and is "closed" with the current
timestamp.  On success the tail is replaced by a segment with the same
start and `stop = now` and the status becomes `paused`; otherwise the
entry is left unchanged. -/
theorem pauseEntry_amended (e : StoredEntry) (now : DT) :
    ((∃ e', pauseEntry e now = .ok e') ↔
      (isRunning e = true ∧ e.stopwatch ≠ [])) ∧
    (isRunning e = true ↔
      ((parseTimeEntry e).status = some ("running".toList) ∧
        ∀ l, e.stopwatch.getLast? = some l → l.start = none ∨ l.stop = none)) ∧
    (isRunning e = false → pauseEntry e now = .invalid) ∧
    (isRunning e = true → e.stopwatch = [] → pauseEntry e now = .indexError) ∧
    (∀ l e', e.stopwatch.getLast? = some l → pauseEntry e now = .ok e' →
      e'.status = some ("paused".toList) ∧
      e'.stopwatch = e.stopwatch.dropLast ++ [⟨l.start, some now⟩] ∧
      e'.updated = some now ∧ e'.completed = e.completed) := by
  refine ⟨?_, isRunning_iff e, ?_, ?_, ?_⟩
  · constructor
    · rintro ⟨e', he'⟩
      by_cases hr : isRunning e
      · refine ⟨hr, ?_⟩
        intro hnil
        simp only [pauseEntry, hr, if_true, parseTimeEntry_stopwatch, hnil,
          List.getLast?_nil] at he'
        simp at he'
      · simp only [pauseEntry, hr, Bool.false_eq_true, if_false] at he'
        simp at he'
    · rintro ⟨hr, hne⟩
      simp only [pauseEntry, hr, if_true, parseTimeEntry_stopwatch]
      cases hlast : e.stopwatch.getLast? with
      | none => exact absurd (List.getLast?_eq_none_iff.mp hlast) hne
      | some l => exact ⟨_, rfl⟩
  · intro hr
    simp only [pauseEntry, hr, Bool.false_eq_true, if_false]
  · intro hr hnil
    simp only [pauseEntry, hr, if_true, parseTimeEntry_stopwatch, hnil,
      List.getLast?_nil]
  · intro l e' hlast hok
    by_cases hr : isRunning e
    · simp only [pauseEntry, hr, if_true, parseTimeEntry_stopwatch, hlast] at hok
      have he' : e' = modifyEntry e now none none none none none
          (some ("paused".toList)) none none
          (some (e.stopwatch.dropLast ++ [⟨l.start, some now⟩])) := by
        injection hok with h
        exact h.symm
      subst he'
      have hlow : pyLower ("paused".toList) = ("paused".toList) := by decide
      cases hsw : e.stopwatch.dropLast ++ [(⟨l.start, some now⟩ : Seg)] with
      | nil => simp at hsw
      | cons y ys =>
        refine ⟨?_, ?_, rfl, rfl⟩
        · show some (pyLower ("paused".toList)) = some ("paused".toList)
          exact congrArg some hlow
        · rfl
    · simp only [pauseEntry, hr, Bool.false_eq_true, if_false] at hok
      simp at hok

/-- C5 witness: pausing the running sample entry succeeds. -/
theorem pauseEntry_amended_witness :
    ∃ e', pauseEntry sampleFoo ⟨0, 12, 0, 0⟩ = TransitionResult.ok e' :=
  (pauseEntry_amended sampleFoo ⟨0, 12, 0, 0⟩).1.mpr ⟨by decide, by decide⟩

/-- C5 counterexample: an entry whose status is `running` but whose
stopwatch tail has no start (so it is not an open segment in the claim's
sense) is still paused successfully by the code, where the claim
requires an invalid-transition failure. -/
theorem pauseEntry_counterexample :
    trOk (pauseEntry samplePauseNoStart ⟨0, 2, 0, 0⟩) = true ∧
    samplePauseNoStart.status = some ("running".toList) ∧
    samplePauseNoStart.stopwatch.map Seg.start = [none] :=
  ⟨by decide, by decide, by decide⟩

/-- C9: frame effect of the status transitions.  A successful `pause`,
`resume` or `stop` writes back `uid`, `description`, `tags`, `notes`,
`created` and `started` unchanged and gives `status`, `stopwatch` and
`updated` (and, for `stop`, `completed`) new values; but, amending the
claim, `alias` and `project` are written back lowercased (so they change
when stored with uppercase letters) and the `location` field is dropped,
because the written record normalizes those fields and carries no
`location` key. -/
theorem transitions_frame (e : StoredEntry) (now : DT) (e' : StoredEntry)
    (h : pauseEntry e now = .ok e' ∨ resumeEntry e now = .ok e' ∨
      stopEntry e now = .ok e') :
    e'.uid = e.uid ∧ e'.description = e.description ∧ e'.tags = e.tags ∧
    e'.notes = e.notes ∧ e'.created = e.created ∧ e'.started = e.started ∧
    e'.«alias» = (parseTimeEntry e).«alias» ∧
    e'.project = (parseTimeEntry e).project ∧
    e'.location = none ∧ e'.updated = some now := by
  rcases h with h | h | h
  · by_cases hr : isRunning e
    · simp only [pauseEntry, hr, if_true, parseTimeEntry_stopwatch] at h
      cases hlast : e.stopwatch.getLast? with
      | none => rw [hlast] at h; simp at h
      | some l =>
        rw [hlast] at h
        injection h with h2
        subst h2
        exact ⟨rfl, rfl, rfl, rfl, rfl, rfl, rfl, rfl, rfl, rfl⟩
    · simp only [pauseEntry, hr, Bool.false_eq_true, if_false] at h
      simp at h
  · by_cases hp : isPaused e
    · simp only [resumeEntry, hp, if_true] at h
      injection h with h2
      subst h2
      exact ⟨rfl, rfl, rfl, rfl, rfl, rfl, rfl, rfl, rfl, rfl⟩
    · simp only [resumeEntry, hp, Bool.false_eq_true, if_false] at h
      simp at h
  · by_cases hr : isRunning e
    · simp only [stopEntry, hr, if_true, parseTimeEntry_stopwatch] at h
      cases hlast : e.stopwatch.getLast? with
      | none => rw [hlast] at h; simp at h
      | some l =>
        rw [hlast] at h
        injection h with h2
        subst h2
        exact ⟨rfl, rfl, rfl, rfl, rfl, rfl, rfl, rfl, rfl, rfl⟩
    · simp only [stopEntry, hr, Bool.false_eq_true, if_false] at h
      simp at h

/-- C9 witness: the frame conjunction evaluated on pausing `sampleFoo`. -/
theorem transitions_frame_witness :
    pausedSampleFoo.uid = sampleFoo.uid ∧
    pausedSampleFoo.description = sampleFoo.description ∧
    pausedSampleFoo.tags = sampleFoo.tags ∧
    pausedSampleFoo.notes = sampleFoo.notes ∧
    pausedSampleFoo.created = sampleFoo.created ∧
    pausedSampleFoo.started = sampleFoo.started ∧
    pausedSampleFoo.«alias» = (parseTimeEntry sampleFoo).«alias» ∧
    pausedSampleFoo.project = (parseTimeEntry sampleFoo).project ∧
    pausedSampleFoo.location = none ∧
    pausedSampleFoo.updated = some ⟨0, 12, 0, 0⟩ :=
  transitions_frame sampleFoo ⟨0, 12, 0, 0⟩ pausedSampleFoo (Or.inl (by decide))

/-- C9 counterexample: pausing an entry whose project is `Foo` writes
back project `foo` -- a field other than status/stopwatch/updated gets a
new value, contradicting the claim's "only" list. -/
theorem transitions_frame_counterexample :
    sampleProjectFoo.project = some ("Foo".toList) ∧
    trProject (pauseEntry sampleProjectFoo ⟨0, 12, 0, 0⟩) = some (some ("foo".toList)) ∧
    (some (some ("foo".toList)) : Option (Option PyStr)) ≠ some (some ("Foo".toList)) :=
  ⟨by decide, by decide, by decide⟩

/-- C2: status exclusion is broken in the code.  In the exclude pass the
`split('+')` result for `status` is immediately overwritten by
re-reading the raw criterion string (a duplicated line), so the `for`
loop iterates over the characters of `"running"` and compares each
single character with the whole status -- never a match.  On entries
`foo` (running) and `bar` (stopped), the query `any%status=running`
therefore returns both entries instead of the claimed `[bar]`. -/
theorem performSearch_status_exclude_bug :
    performSearch (fun _ => none) ⟨0, 12, 0, 0⟩ [sampleFoo, sampleBar]
      ("any%status=running".toList) = some ["u1".toList, ("u2".toList)] ∧
    (some ["u1".toList, ("u2".toList)] : Option (List PyStr)) ≠ some ["u2".toList] :=
  ⟨by decide, by decide⟩

/-- C7: a parsed, non-duplicate file is loaded only when `alias and uid`
are BOTH truthy; it is skipped as incomplete whenever either of the two
keys is missing (or empty), not only when both are -- amending the
claim, which loads a file presenting at least one key. -/
theorem processFile_incomplete (st : LoadState) (p : Nat) (te : StoredEntry)
    (hdu : dupUid st te = false) (hda : dupAlias st te = false) :
    (∀ u a, te.uid = some u → u ≠ [] → te.«alias» = some a → a ≠ [] →
      processFile st ⟨p, some (some te)⟩ =
        { st with
            entries := st.entries ++ [(u, te)]
            entryFiles := st.entryFiles ++ [(u, p)]
            aliases := st.aliases ++ [(a, p)] }) ∧
    (¬(optTruthy te.«alias» = true ∧ optTruthy te.uid = true) →
      processFile st ⟨p, some (some te)⟩ =
        { st with skipped := st.skipped ++ [(p, .incomplete)] }) := by
  constructor
  · intro u a hu hune ha hane
    obtain ⟨u0, us, rfl⟩ : ∃ u0 us, u = u0 :: us := by
      cases u with
      | nil => exact absurd rfl hune
      | cons x xs => exact ⟨x, xs, rfl⟩
    obtain ⟨a0, as_, rfl⟩ : ∃ a0 as_, a = a0 :: as_ := by
      cases a with
      | nil => exact absurd rfl hane
      | cons x xs => exact ⟨x, xs, rfl⟩
    simp only [processFile, hdu, hda, Bool.or_self, Bool.false_eq_true, if_false,
      hu, ha]
  · intro hnot
    simp only [processFile, hdu, hda, Bool.or_self, Bool.false_eq_true, if_false]
    cases ha : te.«alias» with
    | none =>
      cases hu : te.uid with
      | none => rfl
      | some u => cases u with
        | nil => rfl
        | cons u0 us => rfl
    | some a =>
      cases a with
      | nil =>
        cases hu : te.uid with
        | none => rfl
        | some u => cases u with
          | nil => rfl
          | cons u0 us => rfl
      | cons a0 as_ =>
        cases hu : te.uid with
        | none => rfl
        | some u => cases u with
          | nil => rfl
          | cons u0 us =>
            exact absurd ⟨by simp [optTruthy, ha], by simp [optTruthy, hu]⟩ hnot

/-- C7 witness: a file with both keys is loaded into all three maps. -/
theorem processFile_incomplete_witness :
    processFile ⟨[], [], [], []⟩ ⟨0, some (some sampleFoo)⟩ =
      { entryFiles := [("u1".toList, 0)]
        entries := [("u1".toList, sampleFoo)]
        aliases := [("foo".toList, 0)]
        skipped := [] } := by
  have h := (processFile_incomplete ⟨[], [], [], []⟩ 0 sampleFoo
      (by decide) (by decide)).1 ("u1".toList) ("foo".toList)
      (by decide) (by decide) (by decide) (by decide)
  simpa using h

/-- C7 counterexample: a parsed file presenting a uid but no alias is
skipped as incomplete, where the claim says one of the two keys
suffices for loading. -/
theorem parseFiles_counterexample :
    optTruthy sampleUidOnly.uid = true ∧
    (parseFiles [⟨0, some (some sampleUidOnly)⟩]).entries = [] ∧
    (parseFiles [⟨0, some (some sampleUidOnly)⟩]).skipped =
      [(0, SkipReason.incomplete)] :=
  ⟨by decide, by decide, by decide⟩

theorem insertByCompleted_allSome (x : PyStr × Option DT) (hx : x.2.isSome = true) :
    ∀ ys : List (PyStr × Option DT), (∀ p ∈ ys, (p.2).isSome = true) →
      ∃ zs, insertByCompleted x ys = some zs ∧ (∀ p ∈ zs, (p.2).isSome = true) ∧
        zs.length = ys.length + 1 := by
  intro ys
  induction ys with
  | nil =>
    intro _
    exact ⟨[x], rfl, by simpa using hx, rfl⟩
  | cons y ys ih =>
    intro hall
    obtain ⟨a, ha⟩ := Option.isSome_iff_exists.mp hx
    obtain ⟨b, hb⟩ := Option.isSome_iff_exists.mp (hall y (List.mem_cons_self y ys))
    have hlt : pyLtCompleted x.2 y.2 = some (a.toSecs < b.toSecs : Bool) := by
      rw [ha, hb]
      rfl
    by_cases hc : a.toSecs < b.toSecs
    · refine ⟨x :: y :: ys, ?_, ?_, by simp⟩
      · simp only [insertByCompleted, hlt, hc]
        simp
      · intro p hp
        rcases List.mem_cons.mp hp with h | hp'
        · rw [h]; exact hx
        · exact hall p hp'
    · obtain ⟨zs, hzs, hzall, hzlen⟩ := ih (fun p hp => hall p (List.mem_cons_of_mem y hp))
      refine ⟨y :: zs, ?_, ?_, by simp [hzlen]⟩
      · simp only [insertByCompleted, hlt, hc]
        simp [hzs]
      · intro p hp
        rcases List.mem_cons.mp hp with h | hp'
        · rw [h]; exact hall y (List.mem_cons_self y ys)
        · exact hzall p hp'

theorem sortByCompleted_allSome :
    ∀ l : List (PyStr × Option DT), (∀ p ∈ l, (p.2).isSome = true) →
      ∃ ys, sortByCompleted l = some ys ∧ (∀ p ∈ ys, (p.2).isSome = true) ∧
        ys.length = l.length := by
  intro l
  induction l with
  | nil => intro _; exact ⟨[], rfl, by simp, rfl⟩
  | cons x xs ih =>
    intro hall
    obtain ⟨ys, hys, hyall, hylen⟩ := ih (fun p hp => hall p (List.mem_cons_of_mem x hp))
    obtain ⟨zs, hzs, hzall, hzlen⟩ :=
      insertByCompleted_allSome x (hall x (List.mem_cons_self x xs)) ys hyall
    refine ⟨zs, ?_, hzall, by simp [hzlen, hylen]⟩
    simp only [sortByCompleted, hys, hzs]

theorem sortByCompleted_allNone_two :
    ∀ l : List (PyStr × Option DT), (∀ p ∈ l, p.2 = none) → 2 ≤ l.length →
      sortByCompleted l = none := by
  intro l
  induction l with
  | nil => intro _ h; simp at h
  | cons x xs ih =>
    intro hall hlen
    cases xs with
    | nil => simp at hlen
    | cons y ys =>
      cases ys with
      | nil =>
        have hx : x.2 = none := hall x (by simp)
        have hy : y.2 = none := hall y (by simp)
        simp only [sortByCompleted, insertByCompleted, pyLtCompleted, hx, hy]
      | cons z zs =>
        have hrec : sortByCompleted (y :: z :: zs) = none :=
          ih (fun p hp => hall p (List.mem_cons_of_mem x hp)) (by simp)
        rw [sortByCompleted, hrec]

theorem sortByCompleted_mixed :
    ∀ l : List (PyStr × Option DT),
      (∃ p ∈ l, (p.2).isSome = true) → (∃ q ∈ l, q.2 = none) →
      sortByCompleted l = none := by
  intro l
  induction l with
  | nil => rintro ⟨p, hp, _⟩ _; simp at hp
  | cons x xs ih =>
    rintro ⟨p, hp, hps⟩ ⟨q, hq, hqn⟩
    by_cases hxs : (∃ p ∈ xs, (p.2).isSome = true) ∧ (∃ q ∈ xs, q.2 = none)
    · have hrec := ih hxs.1 hxs.2
      simp only [sortByCompleted, hrec]
    · rcases List.mem_cons.mp hp with rfl | hpxs
      · rcases List.mem_cons.mp hq with rfl | hqxs
        · rw [hqn] at hps
          simp at hps
        · -- head is some, xs contains a none; xs cannot also contain a some
          have hxsnone : ∀ r ∈ xs, r.2 = none := by
            intro r hr
            by_contra hrn
            have : (r.2).isSome = true := by
              cases hr2 : r.2 with
              | none => exact absurd hr2 hrn
              | some _ => rfl
            exact hxs ⟨⟨r, hr, this⟩, ⟨q, hqxs, hqn⟩⟩
          cases hxsc : xs with
          | nil => rw [hxsc] at hqxs; simp at hqxs
          | cons y ys =>
            cases ys with
            | nil =>
              have hy : y.2 = none := hxsnone y (by rw [hxsc]; simp)
              obtain ⟨a, ha⟩ := Option.isSome_iff_exists.mp hps
              simp only [sortByCompleted, insertByCompleted, pyLtCompleted, hy, ha]
            | cons z zs =>
              have hrec : sortByCompleted (y :: z :: zs) = none :=
                sortByCompleted_allNone_two (y :: z :: zs)
                  (by rw [← hxsc]; exact hxsnone) (by simp)
              rw [sortByCompleted, hrec]
      · rcases List.mem_cons.mp hq with rfl | hqxs
        · -- head is none, xs contains a some; xs cannot also contain a none
          have hxssome : ∀ r ∈ xs, (r.2).isSome = true := by
            intro r hr
            cases hr2 : r.2 with
            | some _ => rfl
            | none => exact absurd ⟨⟨p, hpxs, hps⟩, ⟨r, hr, hr2⟩⟩ hxs
          obtain ⟨ys, hys, hyall, hylen⟩ := sortByCompleted_allSome xs hxssome
          have hysne : ys ≠ [] := by
            intro hnil
            rw [hnil] at hylen
            cases hxsc : xs with
            | nil => rw [hxsc] at hpxs; simp at hpxs
            | cons y ys' => rw [hxsc] at hylen; simp at hylen
          cases hysc : ys with
          | nil => exact absurd hysc hysne
          | cons y ys' =>
            obtain ⟨b, hb⟩ := Option.isSome_iff_exists.mp
              (hyall y (by rw [hysc]; simp))
            rw [sortByCompleted, hys, hysc]
            simp only [insertByCompleted, pyLtCompleted, hqn]
        · exact absurd ⟨⟨p, hpxs, hps⟩, ⟨q, hqxs, hqn⟩⟩ hxs

/-- C10: the report sort.  `_sort_entries` compares the raw `completed`
values of the selected entries, so it is total only when those values
are mutually comparable; any non-empty selection mixing an entry with a
`completed` timestamp and one without makes a `None` comparison
unavoidable, which raises `TypeError` (here the `none` result), and the
report aborts with no result. -/
theorem sortEntries_mixed (l : List (PyStr × Option DT))
    (hsome : ∃ p ∈ l, (p.2).isSome = true) (hnone : ∃ q ∈ l, q.2 = none) :
    sortEntries l = none := by
  unfold sortEntries
  rw [sortByCompleted_mixed l hsome hnone]
  rfl

/-- C10 witness: a two-entry selection with one completed and one
uncompleted entry fails to sort. -/
theorem sortEntries_mixed_witness :
    sortEntries [("u1".toList, some ⟨19724, 0, 0, 0⟩), ("u2".toList, none)] = none :=
  sortEntries_mixed _
    ⟨("u1".toList, some ⟨19724, 0, 0, 0⟩), by decide, by decide⟩
    ⟨("u2".toList, none), by decide, by decide⟩

end Nrrdtime
